import Mathlib

/-!
# Verification of the twist API client core

A shallow embedding of the pagination and retry core of the `twist` package
(`twist.go`): the retrying HTTP request engine (`doRequestWithRetries`), the
per-resource page fetchers (`getChannelThreadsPage`, `getThreadCommentsPage`,
`getNewThreadCommentsPage`) and the two stateful paginators
(`ThreadsPaginator`, `CommentsPaginator`).

Modelling conventions:

* The HTTP layer is abstracted by a `serve` function passed to each fetcher:
  it maps the request's pagination parameter (the decoded `after_id` /
  `from_obj_index` / `newer_than_ts` value actually put on the wire) to the
  decoded JSON array the server answers with.  JSON decoding itself is not
  modelled; the serve function directly yields the typed records.
* Go machine integers (`uint64`, `int`) are idealized as unbounded `Nat` /
  `Int`.  None of the verified claims depends on wrap-around behaviour.
* A Go `panic` is modelled as a distinguished `Fetched.panicked` result, kept
  apart from ordinary `error` returns.
* `time.Time` arguments are represented by their Unix-seconds value (`Int`),
  which is all the source reads from them.
-/

set_option maxRecDepth 1024

namespace Twist

/-- `Thread` record as decoded from the threads API response (`twist.go`). -/
structure Thread where
  Id : Nat
  TsPosted : Nat
  TsUpdated : Nat
  Title : String
  Text : String
  Creator : Nat
  Archived : Bool
deriving DecidableEq

/-- `Comment` record as decoded from the comments API response (`twist.go`).
`OrderIndex` is the Go `int` field `obj_index`; `TsPosted` the `uint64`
`posted_ts`. -/
structure Comment where
  Id : Nat
  Text : String
  Creator : Nat
  OrderIndex : Int
  TsPosted : Nat
deriving DecidableEq

/-- `maxThreadsPerPage` constant from `twist.go`. -/
def maxThreadsPerPage : Nat := 100

/-- `maxCommentsPerPage` constant from `twist.go`. -/
def maxCommentsPerPage : Nat := 500

/-- Result of a fetcher call: a Go `panic`, an error return, or a decoded
page. -/
inductive Fetched (α : Type) where
  | panicked
  | error (e : String)
  | ok (val : α)
deriving DecidableEq

/-- The Go-side check
`sort.SliceIsSorted(out, func(i, j) bool { return out[i].Id < out[j].Id })`:
true iff no adjacent pair is strictly decreasing, i.e. adjacent ids are
non-strictly ascending. -/
def threadsSorted : List Thread → Bool
  | [] => true
  | [_] => true
  | a :: b :: rest => decide (a.Id ≤ b.Id) && threadsSorted (b :: rest)

/-- The Go-side check
`sort.SliceIsSorted(out, func(i, j) bool { return out[i].OrderIndex < out[j].OrderIndex })`. -/
def commentsSorted : List Comment → Bool
  | [] => true
  | [_] => true
  | a :: b :: rest => decide (a.OrderIndex ≤ b.OrderIndex) && commentsSorted (b :: rest)

/-- The gap-detecting loop body of `getThreadCommentsPage`: starting from the
first record's index `offset`, position `i` must carry order index
`offset + i`; the first violation produces the error message. -/
def findGapFrom (offset : Int) (i : Int) : List Comment → Option String
  | [] => none
  | c :: rest =>
    if c.OrderIndex ≠ offset + i then
      some ("ordering issue in comments: order index is " ++ toString c.OrderIndex ++
        ", expected " ++ toString (offset + i))
    else findGapFrom offset (i + 1) rest

/-- The full gap check of `getThreadCommentsPage` (`offset` is taken from the
first record, scanning starts at position 1). -/
def findGap : List Comment → Option String
  | [] => none
  | c0 :: rest => findGapFrom c0.OrderIndex 1 rest

/-- `after_id` wire parameter computed by `getChannelThreadsPage`: the source
sends the sentinel `-1` instead of a zero `afterID` (working around a server
quirk). -/
def afterIDParam (afterID : Nat) : Int := if afterID = 0 then -1 else (afterID : Int)

/-- `Client.getChannelThreadsPage`: reject a zero channel id, ask the server
for the page after `afterID` (with the `-1` sentinel), and validate that the
response is ascending by id. -/
def getChannelThreadsPage (serve : Int → List Thread) (channelID afterID : Nat) :
    Except String (List Thread) :=
  if channelID = 0 then .error "invalid channel ID"
  else
    let out := serve (afterIDParam afterID)
    if threadsSorted out then .ok out
    else .error "API returned threads that are not properly sorted by ids"

/-- `Client.getThreadCommentsPage` (exact-index mode): panics on a negative
`fromIndex`, rejects a zero thread id, then validates sortedness and
contiguity of the served page. -/
def getThreadCommentsPage (serve : Int → List Comment) (threadID : Nat) (fromIndex : Int) :
    Fetched (List Comment) :=
  if fromIndex < 0 then .panicked
  else if threadID = 0 then .error "invalid thread ID"
  else
    let out := serve fromIndex
    if commentsSorted out then
      match findGap out with
      | some msg => .error msg
      | none => .ok out
    else .error "API returned comments that are not properly sorted by obj_index"

/-- `Client.getNewThreadCommentsPage` (loose timestamp mode): rejects a zero
thread id and performs no validation at all on the served page. -/
def getNewThreadCommentsPage (serve : Nat → List Comment) (threadID : Nat)
    (sinceTimestamp : Nat) : Fetched (List Comment) :=
  if threadID = 0 then .error "invalid thread ID" else .ok (serve sinceTimestamp)

/-- `ThreadsPaginator` state (`c`/`channelID`/`afterID`/`done` fields of the
Go struct; the client pointer is dropped, the serve function standing in for
the HTTP stack). -/
structure ThreadsPaginator where
  channelID : Nat
  afterID : Nat
  done : Bool
deriving DecidableEq

/-- `ThreadsPaginator.Next`. -/
def ThreadsPaginator.next (tp : ThreadsPaginator) : Bool := !tp.done

/-- `ThreadsPaginator.Page`: fail when already done; otherwise fetch one page,
propagate fetch errors unchanged, then mark done on a short page and advance
the cursor to the last record's id. -/
def ThreadsPaginator.page (serve : Int → List Thread) (tp : ThreadsPaginator) :
    Except String (List Thread) × ThreadsPaginator :=
  if tp.done then (.error "all pages already read", tp)
  else
    match getChannelThreadsPage serve tp.channelID tp.afterID with
    | .error e => (.error e, tp)
    | .ok threads =>
      let done' := decide (threads.length < maxThreadsPerPage)
      let afterID' := match threads.getLast? with
        | some t => t.Id
        | none => tp.afterID
      (.ok threads, { tp with done := done', afterID := afterID' })

/-- `CommentsPaginator` state (`threadID`/`nextIndex`/`done`/`nextSinceTs`
fields of the Go struct). -/
structure CommentsPaginator where
  threadID : Nat
  nextIndex : Int
  done : Bool
  nextSinceTs : Nat
deriving DecidableEq

/-- `CommentsPaginator.Next`. -/
def CommentsPaginator.next (tp : CommentsPaginator) : Bool := !tp.done

/-- The maximum `posted_ts` over a page, as computed by the
`for _, c := range comments` loop in `CommentsPaginator.Page` (`maxTs`
starts at zero and keeps the running maximum). -/
def pageMaxTs (comments : List Comment) : Nat :=
  comments.foldl (fun m c => if c.TsPosted > m then c.TsPosted else m) 0

/-- `CommentsPaginator.Page`: fail when already done; fetch in loose mode when
`nextSinceTs ≠ 0` else in exact mode; propagate fetch errors (and panics)
unchanged; in loose mode advance `nextSinceTs` to the page's maximum posted
timestamp plus one when that maximum is nonzero; mark done on a short page and
advance `nextIndex` past the last record's order index. -/
def CommentsPaginator.page (es : Int → List Comment) (ls : Nat → List Comment)
    (tp : CommentsPaginator) : Fetched (List Comment) × CommentsPaginator :=
  if tp.done then (.error "all pages already read", tp)
  else
    let fetched :=
      if tp.nextSinceTs ≠ 0 then getNewThreadCommentsPage ls tp.threadID tp.nextSinceTs
      else getThreadCommentsPage es tp.threadID tp.nextIndex
    match fetched with
    | .panicked => (.panicked, tp)
    | .error e => (.error e, tp)
    | .ok comments =>
      let maxTs := pageMaxTs comments
      let nextSinceTs' :=
        if tp.nextSinceTs ≠ 0 ∧ comments.length ≠ 0 ∧ maxTs ≠ 0 then maxTs + 1
        else tp.nextSinceTs
      let done' := decide (comments.length < maxCommentsPerPage)
      let nextIndex' := match comments.getLast? with
        | some c => c.OrderIndex + 1
        | none => tp.nextIndex
      (.ok comments, { tp with nextSinceTs := nextSinceTs', done := done',
                               nextIndex := nextIndex' })

/-- `Client.ThreadsPaginator` constructor. -/
def mkThreadsPaginator (channelID : Nat) : ThreadsPaginator :=
  { channelID := channelID, afterID := 0, done := false }

/-- `Client.CommentsPaginator` constructor (exact mode). -/
def mkCommentsPaginator (threadID : Nat) : CommentsPaginator :=
  { threadID := threadID, nextIndex := 0, done := false, nextSinceTs := 0 }

/-- `Client.NewCommentsPaginator` constructor: `sinceUnix` is `since.Unix()`;
a non-positive value leaves `nextSinceTs` at zero. -/
def mkNewCommentsPaginator (threadID : Nat) (sinceUnix : Int) : CommentsPaginator :=
  { threadID := threadID, nextIndex := 0, done := false,
    nextSinceTs := if 0 < sinceUnix then sinceUnix.toNat else 0 }

/-- Harness: drive a `ThreadsPaginator` exactly like the documented
usage loop (`for p.Next() { p.Page(ctx) }`), collecting the pages.
`fuel` bounds the number of `Page` calls; with sufficient fuel it is never
exhausted. -/
def drainThreads (serve : Int → List Thread) :
    Nat → ThreadsPaginator → Except String (List (List Thread))
  | 0, tp => if tp.done then .ok [] else .error "fuel exhausted"
  | fuel + 1, tp =>
    if tp.done then .ok []
    else
      match tp.page serve with
      | (.error e, _) => .error e
      | (.ok pg, tp') =>
        match drainThreads serve fuel tp' with
        | .ok pages => .ok (pg :: pages)
        | .error e => .error e

/-- Harness: drive a `CommentsPaginator` exactly like the documented usage
loop, collecting the pages and propagating a fetcher panic. -/
def drainComments (es : Int → List Comment) (ls : Nat → List Comment) :
    Nat → CommentsPaginator → Fetched (List (List Comment))
  | 0, tp => if tp.done then .ok [] else .error "fuel exhausted"
  | fuel + 1, tp =>
    if tp.done then .ok []
    else
      match tp.page es ls with
      | (.panicked, _) => .panicked
      | (.error e, _) => .error e
      | (.ok pg, tp') =>
        match drainComments es ls fuel tp' with
        | .ok pages => .ok (pg :: pages)
        | .panicked => .panicked
        | .error e => .error e

/-- A server that answers every exact-index comments request correctly for a
thread whose comments are `cs` with order indices `0..N-1`: the request for
window `[fromIndex, fromIndex+499]` is answered with those comments, i.e.
`(cs.drop fromIndex).take 500`. -/
def exactServer (cs : List Comment) : Int → List Comment :=
  fun i => (cs.drop i.toNat).take maxCommentsPerPage

/-- A server that answers every threads `after_id` request correctly for a
channel holding thread list `ts` (ascending ids): all threads with id
strictly greater than the wire parameter, first `maxThreadsPerPage` of them. -/
def threadServer (ts : List Thread) : Int → List Thread :=
  fun p => (ts.filter (fun t => p < (t.Id : Int))).take maxThreadsPerPage

section RetryEngine

/-- Outcome of one underlying `http.DefaultClient.Do` call: a network-level
error, or a response with a status code, a `Content-Type` header value, and
an (abstracted) body. -/
inductive Outcome where
  | netError (msg : String)
  | response (status : Nat) (contentType : String) (body : Nat)
deriving DecidableEq

/-- `jsonContentType` constant. -/
def jsonContentType : String := "application/json"

/-- Error message for an unexpected status (the model tracks only the numeric
code of Go's `resp.Status`). -/
def statusErr (status : Nat) : String := "unexpected status: " ++ toString status

/-- Result of the `attempt` closure in `doRequestWithRetries`: success with
the body, or failure with the `tryAgain` flag and the error. -/
inductive AttemptOut where
  | ok (body : Nat)
  | fail (tryAgain : Bool) (err : String)
deriving DecidableEq

/-- The `attempt` closure of `doRequestWithRetries`: a `Do` error is returned
with `tryAgain = false`; status 200 proceeds to the content-type check;
status 429 or ≥ 500 fails with `tryAgain = true`; any other status fails
fatally; a 200 response with a non-JSON content type fails fatally. -/
def attempt : Outcome → AttemptOut
  | .netError m => .fail false m
  | .response status ct body =>
    if status = 200 then
      if ct = jsonContentType then .ok body
      else .fail false ("unexpected Content-Type: " ++ ct)
    else if status = 429 ∨ 500 ≤ status then .fail true (statusErr status)
    else .fail false (statusErr status)

/-- Whether the attempt classifier asks for a retry on this outcome. -/
def attemptRetries (o : Outcome) : Bool :=
  match attempt o with
  | .fail true _ => true
  | _ => false

/-- The request body as the retry loop sees it: `nil`, a seekable body whose
`Seek(0, io.SeekStart)` either succeeds or fails with the given message, or a
non-nil body that does not implement `io.Seeker`. -/
inductive ReqBody where
  | nil
  | seekable (seekErr : Option String)
  | nonSeekable
deriving DecidableEq

/-- Structured error of the retry engine; each constructor records what the
Go `fmt.Errorf` wraps. -/
inductive ReqError where
  | rewindFailed (seekErr : String)
  | cannotRewind (lastError : Option String)
  | cancelled
  | attemptFatal (err : String)
  | givingUp (lastError : Option String)
deriving DecidableEq

/-- The `for n := 0; n < maxRetries; n++` loop of `doRequestWithRetries`,
with `rem` the remaining iterations (`maxRetries - n`).  Before every attempt
but the first: rewind the body (failing fast when it cannot be rewound), then
wait on the ticker unless the context is cancelled first.  `cancelled n`
tells whether the context is done at the wait preceding attempt `n`;
`outcomes n` is the underlying outcome of attempt `n`. -/
def retryLoop (bk : ReqBody) (cancelled : Nat → Bool) (outcomes : Nat → Outcome) :
    Nat → Nat → Option String → Except ReqError Nat
  | 0, _, lastError => .error (.givingUp lastError)
  | rem + 1, n, lastError =>
    let rewindErr : Option ReqError :=
      if n ≠ 0 then
        match bk with
        | .nil => none
        | .seekable none => none
        | .seekable (some e) => some (.rewindFailed e)
        | .nonSeekable => some (.cannotRewind lastError)
      else none
    match rewindErr with
    | some e => .error e
    | none =>
      if n ≠ 0 ∧ cancelled n then .error .cancelled
      else
        match attempt (outcomes n) with
        | .ok b => .ok b
        | .fail true e => retryLoop bk cancelled outcomes rem (n + 1) (some e)
        | .fail false e => .error (.attemptFatal e)

/-- `maxRetries` constant. -/
def maxRetries : Nat := 10

/-- `doRequestWithRetries`: run the attempt loop for at most `maxRetries`
attempts, starting with no recorded last error. -/
def doRequestWithRetries (bk : ReqBody) (cancelled : Nat → Bool)
    (outcomes : Nat → Outcome) : Except ReqError Nat :=
  retryLoop bk cancelled outcomes maxRetries 0 none

/-- An outcome the spec calls transient/retryable at the HTTP level: a
response with status 429 or 5xx. -/
def retryableStatus : Outcome → Bool
  | .netError _ => false
  | .response st _ _ => decide (st = 429 ∨ (500 ≤ st ∧ st ≤ 599))

end RetryEngine

/-! ## Basic paginator lemmas -/

/-- A done `ThreadsPaginator` fails without consulting the server and leaves
its state untouched. -/
lemma threads_page_done (serve : Int → List Thread) (tp : ThreadsPaginator)
    (h : tp.done = true) : tp.page serve = (.error "all pages already read", tp) := by
  unfold ThreadsPaginator.page
  rw [h]
  simp

/-- A done `CommentsPaginator` fails without consulting either server and
leaves its state untouched. -/
lemma comments_page_done (es : Int → List Comment) (ls : Nat → List Comment)
    (tp : CommentsPaginator) (h : tp.done = true) :
    tp.page es ls = (.error "all pages already read", tp) := by
  unfold CommentsPaginator.page
  rw [h]
  simp

/-- Draining a done `ThreadsPaginator` yields no pages, for any fuel. -/
lemma drainThreads_done (serve : Int → List Thread) (fuel : Nat) (tp : ThreadsPaginator)
    (h : tp.done = true) : drainThreads serve fuel tp = .ok [] := by
  cases fuel <;> simp [drainThreads, h]

/-- Draining a done `CommentsPaginator` yields no pages, for any fuel. -/
lemma drainComments_done (es : Int → List Comment) (ls : Nat → List Comment)
    (fuel : Nat) (tp : CommentsPaginator) (h : tp.done = true) :
    drainComments es ls fuel tp = .ok [] := by
  cases fuel <;> simp [drainComments, h]

/-- C8: a `NewCommentsPaginator` built from a "since" time whose Unix
timestamp is non-positive is the very same paginator state as the exact-mode
`CommentsPaginator` for that thread; since every observable (requests issued
and pages returned) is a function of that state, the zero timestamp acts as
"no lower bound" rather than as a literal boundary. -/
theorem zeroSince_fallback (threadID : Nat) (sinceUnix : Int) (h : sinceUnix ≤ 0) :
    mkNewCommentsPaginator threadID sinceUnix = mkCommentsPaginator threadID := by
  unfold mkNewCommentsPaginator mkCommentsPaginator
  have : ¬ 0 < sinceUnix := by omega
  simp [this]

/-- Witness for C8 at `threadID = 7`, `since.Unix() = -3`. -/
theorem zeroSince_fallback_witness :
    ((-3 : Int) ≤ 0) ∧ mkNewCommentsPaginator 7 (-3) = mkCommentsPaginator 7 :=
  ⟨by decide, zeroSince_fallback 7 (-3) (by decide)⟩

/-- C9: whenever `Page` returns an error, the paginator state (done flag and
every cursor field) is exactly what it was before the call, for both
paginator kinds, so retrying requests the same page. -/
theorem page_error_atomic (tserve : Int → List Thread) (tp : ThreadsPaginator) (e : String)
    (es : Int → List Comment) (ls : Nat → List Comment) (cp : CommentsPaginator)
    (e' : String) :
    ((tp.page tserve).1 = .error e → (tp.page tserve).2 = tp) ∧
    ((cp.page es ls).1 = .error e' → (cp.page es ls).2 = cp) := by
  constructor
  · intro h
    unfold ThreadsPaginator.page at *
    by_cases hd : tp.done
    · simp [hd]
    · simp only [hd, if_false, Bool.false_eq_true] at h ⊢
      cases hfetch : getChannelThreadsPage tserve tp.channelID tp.afterID with
      | error e2 => simp [hfetch]
      | ok threads => simp [hfetch] at h
  · intro h
    unfold CommentsPaginator.page at *
    by_cases hd : cp.done
    · simp [hd]
    · simp only [hd, if_false, Bool.false_eq_true] at h ⊢
      cases hfetch : (if cp.nextSinceTs ≠ 0 then
          getNewThreadCommentsPage ls cp.threadID cp.nextSinceTs
        else getThreadCommentsPage es cp.threadID cp.nextIndex) with
      | panicked => simp [hfetch] at h ⊢
      | error e2 => simp [hfetch]
      | ok comments => simp [hfetch] at h

/-- Witness for C9: an erroring `Page` call (invalid channel id 0, invalid
thread id 0) leaves both paginators' states unchanged. -/
theorem page_error_atomic_witness :
    ((mkThreadsPaginator 0).page (fun _ => [])).1 = .error "invalid channel ID" ∧
    ((mkThreadsPaginator 0).page (fun _ => [])).2 = mkThreadsPaginator 0 ∧
    ((mkCommentsPaginator 0).page (fun _ => []) (fun _ => [])).1 = .error "invalid thread ID" ∧
    ((mkCommentsPaginator 0).page (fun _ => []) (fun _ => [])).2 = mkCommentsPaginator 0 :=
  ⟨by rfl,
   (page_error_atomic (fun _ => []) (mkThreadsPaginator 0) "invalid channel ID"
      (fun _ => []) (fun _ => []) (mkCommentsPaginator 0) "invalid thread ID").1 (by rfl),
   by rfl,
   (page_error_atomic (fun _ => []) (mkThreadsPaginator 0) "invalid channel ID"
      (fun _ => []) (fun _ => []) (mkCommentsPaginator 0) "invalid thread ID").2 (by rfl)⟩

/-- C7: a short successful page flips a paginator to done (`Next` false), and
a done paginator answers every later `Page` call with the same
"all pages already read" error, with unchanged state and without consulting
any server (the result is the same for every serve function); hence every
subsequent call fails identically. -/
theorem paginator_exhaustion (tserve : Int → List Thread) (tp : ThreadsPaginator)
    (es : Int → List Comment) (ls : Nat → List Comment) (cp : CommentsPaginator) :
    (tp.done = true → tp.page tserve = (.error "all pages already read", tp)) ∧
    (∀ pg, (tp.page tserve).1 = .ok pg → pg.length < maxThreadsPerPage →
      (tp.page tserve).2.next = false ∧
      ∀ tserve2, (tp.page tserve).2.page tserve2 =
        (.error "all pages already read", (tp.page tserve).2)) ∧
    (cp.done = true → cp.page es ls = (.error "all pages already read", cp)) ∧
    (∀ pg, (cp.page es ls).1 = .ok pg → pg.length < maxCommentsPerPage →
      (cp.page es ls).2.next = false ∧
      ∀ es2 ls2, (cp.page es ls).2.page es2 ls2 =
        (.error "all pages already read", (cp.page es ls).2)) := by
  refine ⟨fun h => threads_page_done tserve tp h, ?_,
    fun h => comments_page_done es ls cp h, ?_⟩
  · intro pg hok hshort
    have hdone : (tp.page tserve).2.done = true := by
      unfold ThreadsPaginator.page at hok ⊢
      by_cases hd : tp.done
      · simp [hd] at hok
      · simp only [hd, if_false, Bool.false_eq_true] at hok ⊢
        cases hfetch : getChannelThreadsPage tserve tp.channelID tp.afterID with
        | error e2 => simp [hfetch] at hok
        | ok threads =>
          simp only [hfetch] at hok ⊢
          simp at hok
          subst hok
          simpa using hshort
    exact ⟨by simp [ThreadsPaginator.next, hdone],
      fun tserve2 => threads_page_done tserve2 _ hdone⟩
  · intro pg hok hshort
    have hdone : (cp.page es ls).2.done = true := by
      unfold CommentsPaginator.page at hok ⊢
      by_cases hd : cp.done
      · simp [hd] at hok
      · simp only [hd, if_false, Bool.false_eq_true] at hok ⊢
        cases hfetch : (if cp.nextSinceTs ≠ 0 then
            getNewThreadCommentsPage ls cp.threadID cp.nextSinceTs
          else getThreadCommentsPage es cp.threadID cp.nextIndex) with
        | panicked => simp [hfetch] at hok
        | error e2 => simp [hfetch] at hok
        | ok comments =>
          simp only [hfetch] at hok ⊢
          simp at hok
          subst hok
          simpa using hshort
    exact ⟨by simp [CommentsPaginator.next, hdone],
      fun es2 ls2 => comments_page_done es2 ls2 _ hdone⟩

/-- Witness for C7: a server answering with a single short page; after one
`Page` call both paginators are exhausted and a second call fails with the
fixed error, leaving state unchanged. -/
theorem paginator_exhaustion_witness :
    (((mkThreadsPaginator 1).page (fun _ => [])).1 = .ok [] ∧
      ([] : List Thread).length < maxThreadsPerPage ∧
      ((mkThreadsPaginator 1).page (fun _ => [])).2.next = false ∧
      ((mkThreadsPaginator 1).page (fun _ => [])).2.page (fun _ => []) =
        (.error "all pages already read", ((mkThreadsPaginator 1).page (fun _ => [])).2)) ∧
    (((mkCommentsPaginator 1).page (fun _ => []) (fun _ => [])).1 = .ok [] ∧
      ([] : List Comment).length < maxCommentsPerPage ∧
      ((mkCommentsPaginator 1).page (fun _ => []) (fun _ => [])).2.next = false ∧
      ((mkCommentsPaginator 1).page (fun _ => []) (fun _ => [])).2.page (fun _ => []) (fun _ => []) =
        (.error "all pages already read", ((mkCommentsPaginator 1).page (fun _ => []) (fun _ => [])).2)) := by
  have hT := (paginator_exhaustion (fun _ => []) (mkThreadsPaginator 1)
    (fun _ => []) (fun _ => []) (mkCommentsPaginator 1)).2.1 [] (by rfl) (by decide)
  have hC := (paginator_exhaustion (fun _ => []) (mkThreadsPaginator 1)
    (fun _ => []) (fun _ => []) (mkCommentsPaginator 1)).2.2.2 [] (by rfl) (by decide)
  exact ⟨⟨by rfl, by decide, hT.1, hT.2 (fun _ => [])⟩,
    ⟨by rfl, by decide, hC.1, hC.2 (fun _ => []) (fun _ => [])⟩⟩

/-! ## Retry engine theorems -/

/-- A 429/5xx response makes the attempt closure fail with the retry flag
set. -/
lemma attempt_of_retryableStatus {o : Outcome} (h : retryableStatus o = true) :
    ∃ st, attempt o = .fail true (statusErr st) := by
  cases o with
  | netError m => simp [retryableStatus] at h
  | response st ct b =>
    refine ⟨st, ?_⟩
    simp only [retryableStatus, decide_eq_true_eq] at h
    have h200 : ¬ st = 200 := by omega
    have hcase : st = 429 ∨ 500 ≤ st := by omega
    simp [attempt, h200, hcase]

/-- Bodies that the retry loop can always rewind: no body at all, or a
seekable body whose `Seek` succeeds. -/
def rewindable (bk : ReqBody) : Prop := bk = .nil ∨ bk = .seekable none

/-- If the first `j` attempts (counting from attempt `n`) are 429/5xx
failures and attempt `n + j` is a 200/JSON success, the loop returns that
attempt's body, provided the body is rewindable, the context is never
cancelled, and enough iterations remain. -/
lemma retryLoop_success (bk : ReqBody) (cancelled : Nat → Bool) (outcomes : Nat → Outcome)
    (hbk : rewindable bk) (hc : ∀ m, cancelled m = false) :
    ∀ (j rem n : Nat) (le : Option String) (b : Nat), j < rem →
      (∀ i, i < j → retryableStatus (outcomes (n + i)) = true) →
      outcomes (n + j) = .response 200 jsonContentType b →
      retryLoop bk cancelled outcomes rem n le = .ok b := by
  intro j
  induction j with
  | zero =>
    intro rem n le b hrem hretry hsucc
    obtain ⟨r, rfl⟩ : ∃ r, rem = r + 1 := ⟨rem - 1, by omega⟩
    unfold retryLoop
    rcases hbk with rfl | rfl <;>
      simp [hc n, Nat.add_zero n ▸ hsucc, attempt, jsonContentType]
  | succ j ih =>
    intro rem n le b hrem hretry hsucc
    obtain ⟨r, rfl⟩ : ∃ r, rem = r + 1 := ⟨rem - 1, by omega⟩
    have h0 : retryableStatus (outcomes n) = true := by
      simpa using hretry 0 (Nat.succ_pos j)
    obtain ⟨st, hatt⟩ := attempt_of_retryableStatus h0
    have hrec : retryLoop bk cancelled outcomes r (n + 1) (some (statusErr st)) = .ok b := by
      refine ih r (n + 1) _ b (by omega) ?_ ?_
      · intro i hi
        have := hretry (i + 1) (by omega)
        simpa [Nat.add_assoc, Nat.add_comm 1 i] using this
      · have : n + 1 + j = n + (j + 1) := by omega
        rw [this]
        exact hsucc
    unfold retryLoop
    rcases hbk with rfl | rfl <;> simp [hc n, hatt, hrec]

/-- If all `rem ≥ 1` remaining attempts (from attempt `n`) are 429/5xx
failures, the loop gives up wrapping the error of the last attempt. -/
lemma retryLoop_exhaust (bk : ReqBody) (cancelled : Nat → Bool) (outcomes : Nat → Outcome)
    (hbk : rewindable bk) (hc : ∀ m, cancelled m = false) :
    ∀ (rem n : Nat) (le : Option String), 0 < rem →
      (∀ i, i < rem → retryableStatus (outcomes (n + i)) = true) →
      ∃ e, attempt (outcomes (n + rem - 1)) = .fail true e ∧
        retryLoop bk cancelled outcomes rem n le = .error (.givingUp (some e)) := by
  intro rem
  induction rem with
  | zero => intro n le h; omega
  | succ r ih =>
    intro n le _ hretry
    have h0 : retryableStatus (outcomes n) = true := by
      simpa using hretry 0 (Nat.succ_pos r)
    obtain ⟨st, hatt⟩ := attempt_of_retryableStatus h0
    by_cases hr : r = 0
    · subst hr
      refine ⟨statusErr st, by simpa using hatt, ?_⟩
      unfold retryLoop
      rcases hbk with rfl | rfl <;> simp [hc n, hatt, retryLoop]
    · have hshift : ∀ i, i < r → retryableStatus (outcomes (n + 1 + i)) = true := by
        intro i hi
        have := hretry (i + 1) (by omega)
        simpa [Nat.add_assoc, Nat.add_comm 1 i] using this
      obtain ⟨e, he, hrec⟩ := ih (n + 1) (some (statusErr st)) (by omega) hshift
      refine ⟨e, ?_, ?_⟩
      · have : n + 1 + r - 1 = n + (r + 1) - 1 := by omega
        rwa [this] at he
      · unfold retryLoop
        rcases hbk with rfl | rfl <;> simp [hc n, hatt, hrec]

/-- C3: with a rewindable (nil or seekable) body and no cancellation, (a) if
the first `k < 10` attempts fail with 429/5xx and attempt `k` succeeds with
HTTP 200 and JSON content type, `doRequestWithRetries` returns that response
body; (b) if all 10 attempts fail with 429/5xx, it returns a "giving up"
error wrapping the failure of the last attempt — and, since the conclusion
holds for arbitrary `outcomes` beyond index 9, no further attempt is
consulted. -/
theorem retryEngine_budget (bk : ReqBody) (cancelled : Nat → Bool)
    (outcomes : Nat → Outcome) (hbk : rewindable bk) (hc : ∀ m, cancelled m = false) :
    (∀ k b, k < maxRetries → (∀ i, i < k → retryableStatus (outcomes i) = true) →
      outcomes k = .response 200 jsonContentType b →
      doRequestWithRetries bk cancelled outcomes = .ok b) ∧
    ((∀ i, i < maxRetries → retryableStatus (outcomes i) = true) →
      ∃ e, attempt (outcomes (maxRetries - 1)) = .fail true e ∧
        doRequestWithRetries bk cancelled outcomes = .error (.givingUp (some e))) := by
  constructor
  · intro k b hk hretry hsucc
    exact retryLoop_success bk cancelled outcomes hbk hc k maxRetries 0 none b hk
      (by simpa using hretry) (by simpa using hsucc)
  · intro hretry
    obtain ⟨e, he, hloop⟩ := retryLoop_exhaust bk cancelled outcomes hbk hc maxRetries 0 none
      (by simp [maxRetries]) (by simpa using hretry)
    exact ⟨e, by simpa using he, hloop⟩

/-- Witness for C3: three 503 failures then a 200/JSON success with body 42
yields `ok 42`; ten consecutive 503 failures yield the giving-up error. -/
theorem retryEngine_budget_witness :
    (doRequestWithRetries .nil (fun _ => false)
      (fun n => if n < 3 then .response 503 "" 0 else .response 200 jsonContentType 42) =
      .ok 42) ∧
    (doRequestWithRetries .nil (fun _ => false) (fun _ => .response 503 "" 0) =
      .error (.givingUp (some (statusErr 503)))) := by
  constructor
  · exact (retryEngine_budget .nil (fun _ => false)
      (fun n => if n < 3 then .response 503 "" 0 else .response 200 jsonContentType 42)
      (Or.inl rfl) (fun _ => rfl)).1 3 42 (by decide) (by decide) (by decide)
  · obtain ⟨e, he, hrun⟩ := (retryEngine_budget .nil (fun _ => false)
      (fun _ => .response 503 "" 0) (Or.inl rfl) (fun _ => rfl)).2 (by decide)
    have : e = statusErr 503 := by
      simpa [attempt, statusErr, jsonContentType] using he.symm
    rwa [this] at hrun

/-- C4 counterexample: the claim says a network-level error is classified as
a retryable failure, but the attempt closure returns it with
`tryAgain = false`; end to end, a request whose first attempt hits a network
error is not retried even though the second attempt would have succeeded. -/
theorem networkError_not_retried :
    attemptRetries (.netError "connection refused") = false ∧
    doRequestWithRetries .nil (fun _ => false)
      (fun n => if n = 0 then .netError "connection refused"
        else .response 200 jsonContentType 7) =
      .error (.attemptFatal "connection refused") := by
  exact ⟨rfl, rfl⟩

/-- C4 (amended): per-attempt classification — 200 with JSON content type is
a success carrying the body; 200 with any other content type is fatal; 429 or
any status ≥ 500 is a retryable failure; any other status is fatal; and a
network-level error is a fatal, non-retryable failure (returned immediately,
not retried). -/
theorem attempt_classification (b st : Nat) (ct m : String) :
    attempt (.response 200 jsonContentType b) = .ok b ∧
    (ct ≠ jsonContentType → attempt (.response 200 ct b) =
      .fail false ("unexpected Content-Type: " ++ ct)) ∧
    (st = 429 ∨ 500 ≤ st → attempt (.response st ct b) = .fail true (statusErr st)) ∧
    (st ≠ 200 → st ≠ 429 → st < 500 → attempt (.response st ct b) =
      .fail false (statusErr st)) ∧
    attempt (.netError m) = .fail false m := by
  refine ⟨by simp [attempt], fun hct => by simp [attempt, hct], fun hst => ?_, ?_, rfl⟩
  · have h200 : ¬ st = 200 := by omega
    simp [attempt, h200, hst]
  · intro h200 h429 h5xx
    have : ¬ (st = 429 ∨ 500 ≤ st) := by omega
    simp [attempt, h200, this]

/-- Witness for C4's amended classification at status 503, content type
`text/html`, body 9, message `timeout`. -/
theorem attempt_classification_witness :
    attempt (.response 200 jsonContentType 9) = .ok 9 ∧
    attempt (.response 200 "text/html" 9) = .fail false "unexpected Content-Type: text/html" ∧
    attempt (.response 503 "text/html" 9) = .fail true (statusErr 503) ∧
    attempt (.response 404 "text/html" 9) = .fail false (statusErr 404) ∧
    attempt (.netError "timeout") = .fail false "timeout" := by
  obtain ⟨h1, h2, h3, _, h5⟩ := attempt_classification 9 503 "text/html" "timeout"
  obtain ⟨_, _, _, h4, _⟩ := attempt_classification 9 404 "text/html" "timeout"
  exact ⟨h1, h2 (by decide), h3 (by omega), h4 (by decide) (by decide) (by decide), h5⟩

/-- C5: a request carrying a non-nil, non-seekable body whose (first) attempt
fails with a retryable 429/5xx outcome makes `doRequestWithRetries` return
the "cannot rewind" error wrapping that failure, before performing the retry
attempt — the conclusion holds for arbitrary outcomes at every later attempt,
so nothing is resent. -/
theorem nonSeekableBody_abortsRetry (cancelled : Nat → Bool) (outcomes : Nat → Outcome)
    (s bb : Nat) (c : String)
    (ho : outcomes 0 = .response s c bb) (hs : s = 429 ∨ (500 ≤ s ∧ s ≤ 599)) :
    doRequestWithRetries .nonSeekable cancelled outcomes =
      .error (.cannotRewind (some (statusErr s))) := by
  have h200 : ¬ s = 200 := by omega
  have hcase : s = 429 ∨ 500 ≤ s := by omega
  have hatt : attempt (outcomes 0) = .fail true (statusErr s) := by
    simp [ho, attempt, h200, hcase]
  unfold doRequestWithRetries maxRetries retryLoop
  simp [hatt, retryLoop]

/-- Witness for C5: a non-seekable body and a 500 first attempt produce the
"cannot rewind" error wrapping that failure. -/
theorem nonSeekableBody_abortsRetry_witness :
    doRequestWithRetries .nonSeekable (fun _ => false) (fun _ => .response 500 "" 0) =
      .error (.cannotRewind (some (statusErr 500))) :=
  nonSeekableBody_abortsRetry (fun _ => false) (fun _ => .response 500 "" 0) 500 0 ""
    rfl (by omega)

/-! ## Characterizing the exact-mode page validation -/

instance : Inhabited Comment := ⟨⟨0, "", 0, 0, 0⟩⟩

/-- The property the exact-mode validation enforces: position `j` carries
order index `first_index + j`. -/
def contigFrom (out : List Comment) : Prop :=
  ∀ j (h : j < out.length), (out.get ⟨j, h⟩).OrderIndex = out.headI.OrderIndex + j

instance (out : List Comment) : Decidable (contigFrom out) :=
  inferInstanceAs (Decidable (∀ j (_ : j < out.length), _))

/-- The gap scan accepts a suffix exactly when each of its positions `j`
carries order index `offset + k + j`. -/
lemma findGapFrom_none_iff (offset : Int) :
    ∀ (l : List Comment) (k : Int), findGapFrom offset k l = none ↔
      ∀ j (h : j < l.length), (l.get ⟨j, h⟩).OrderIndex = offset + k + j := by
  intro l
  induction l with
  | nil => intro k; simp [findGapFrom]
  | cons c rest ih =>
    intro k
    unfold findGapFrom
    by_cases hc : c.OrderIndex = offset + k
    · rw [if_neg (by simpa using hc), ih (k + 1)]
      constructor
      · intro hall j hj
        cases j with
        | zero => simpa using hc
        | succ j =>
          have hlt : j < rest.length := by simpa using hj
          have := hall j hlt
          simp only [List.get_eq_getElem, List.getElem_cons_succ] at this ⊢
          rw [this]
          push_cast
          ring
      · intro hall j hj
        have := hall (j + 1) (by simpa using Nat.succ_lt_succ hj)
        simp only [List.get_eq_getElem, List.getElem_cons_succ] at this ⊢
        rw [this]
        push_cast
        ring
    · rw [if_pos (by simpa using hc)]
      constructor
      · intro h; exact absurd h (by simp)
      · intro hall
        have := hall 0 (by simp)
        simp at this
        exact absurd this hc

/-- The full gap check accepts a page exactly when it is contiguous from its
first record's order index. -/
lemma findGap_none_iff (l : List Comment) : findGap l = none ↔ contigFrom l := by
  cases l with
  | nil => simp [findGap, contigFrom]
  | cons c rest =>
    unfold findGap contigFrom
    rw [findGapFrom_none_iff c.OrderIndex rest 1]
    constructor
    · intro hall j hj
      cases j with
      | zero => simp
      | succ j =>
        have hlt : j < rest.length := by simpa using hj
        have := hall j hlt
        simp only [List.get_eq_getElem, List.getElem_cons_succ, List.headI_cons] at this ⊢
        rw [this]
        push_cast
        ring
    · intro hall j hj
      have := hall (j + 1) (by simpa using Nat.succ_lt_succ hj)
      simp only [List.get_eq_getElem, List.getElem_cons_succ, List.headI_cons] at this ⊢
      rw [this]
      push_cast
      ring

/-- A contiguous page passes the non-strict sortedness check. -/
lemma commentsSorted_of_contig : ∀ {l : List Comment}, contigFrom l → commentsSorted l = true := by
  intro l
  induction l with
  | nil => intro _; rfl
  | cons a rest ih =>
    intro hc
    cases rest with
    | nil => rfl
    | cons b rest2 =>
      have hab : b.OrderIndex = a.OrderIndex + 1 := by
        have := hc 1 (by simp)
        simpa using this
      have htail : contigFrom (b :: rest2) := by
        intro j hj
        have := hc (j + 1) (by simpa using Nat.succ_lt_succ hj)
        simp only [List.get_eq_getElem, List.getElem_cons_succ, List.headI_cons] at this ⊢
        rw [this, hab]
        push_cast
        ring
      unfold commentsSorted
      rw [ih htail]
      simp [hab]

/-- A contiguous page at a non-negative index passes the whole exact-mode
fetcher. -/
lemma getThreadCommentsPage_ok_of_contig (es : Int → List Comment) (tid : Nat) (i : Int)
    (h0 : 0 ≤ i) (ht : tid ≠ 0) (hv : contigFrom (es i)) :
    getThreadCommentsPage es tid i = .ok (es i) := by
  unfold getThreadCommentsPage
  rw [if_neg (by omega), if_neg ht]
  simp [commentsSorted_of_contig hv, (findGap_none_iff (es i)).mpr hv]

/-- A served page that fails sortedness or contiguity makes the exact-mode
fetcher return an error (never a successful page). -/
lemma getThreadCommentsPage_error_of_invalid (es : Int → List Comment) (tid : Nat) (i : Int)
    (h0 : 0 ≤ i) (ht : tid ≠ 0)
    (hv : commentsSorted (es i) = false ∨ ¬ contigFrom (es i)) :
    ∃ e, getThreadCommentsPage es tid i = .error e := by
  unfold getThreadCommentsPage
  rw [if_neg (by omega), if_neg ht]
  by_cases hs : commentsSorted (es i)
  · have hnc : ¬ contigFrom (es i) := by
      rcases hv with hv | hv
      · rw [hv] at hs; exact absurd hs (by simp)
      · exact hv
    have : findGap (es i) ≠ none := fun h => hnc ((findGap_none_iff (es i)).mp h)
    obtain ⟨msg, hmsg⟩ := Option.ne_none_iff_exists'.mp this
    refine ⟨msg, ?_⟩
    simp [hs, hmsg]
  · refine ⟨"API returned comments that are not properly sorted by obj_index", ?_⟩
    simp [hs]

/-- Whatever the exact-mode fetcher accepts is the served page, and it is
contiguous. -/
lemma getThreadCommentsPage_ok_inv (es : Int → List Comment) (tid : Nat) (i : Int)
    (out : List Comment) (h : getThreadCommentsPage es tid i = .ok out) :
    out = es i ∧ contigFrom out ∧ 0 ≤ i := by
  unfold getThreadCommentsPage at h
  by_cases hi : i < 0
  · rw [if_pos hi] at h; exact absurd h (by simp)
  · rw [if_neg hi] at h
    by_cases htid : tid = 0
    · rw [if_pos htid] at h; exact absurd h (by simp)
    · rw [if_neg htid] at h
      by_cases hs : commentsSorted (es i)
      · simp only [hs, if_true] at h
        cases hg : findGap (es i) with
        | some msg => rw [hg] at h; exact absurd h (by simp)
        | none =>
          rw [hg] at h
          simp at h
          subst h
          exact ⟨rfl, (findGap_none_iff (es i)).mp hg, by omega⟩
      · simp only [hs] at h
        exact absurd h (by simp)

/-- The exact-mode fetcher never panics when asked for a non-negative
index. -/
lemma getThreadCommentsPage_no_panic (es : Int → List Comment) (tid : Nat) (i : Int)
    (h0 : 0 ≤ i) : getThreadCommentsPage es tid i ≠ .panicked := by
  unfold getThreadCommentsPage
  rw [if_neg (by omega)]
  by_cases ht : tid = 0
  · simp [ht]
  · rw [if_neg ht]
    by_cases hs : commentsSorted (es i)
    · simp only [hs, if_true]
      cases findGap (es i) <;> simp
    · simp [hs]

/-! ## Loose-mode cursor advance (C6) -/

/-- Evaluation of one loose-mode `Page` call on a live paginator: the served
page is returned and the cursor fields are updated by the source's rules. -/
lemma CommentsPaginator.page_loose (es : Int → List Comment) (ls : Nat → List Comment)
    (tp : CommentsPaginator) (hdone : tp.done = false) (hmode : tp.nextSinceTs ≠ 0)
    (htid : tp.threadID ≠ 0) :
    tp.page es ls = (.ok (ls tp.nextSinceTs),
      { tp with
        nextSinceTs :=
          if (ls tp.nextSinceTs).length ≠ 0 ∧ pageMaxTs (ls tp.nextSinceTs) ≠ 0 then
            pageMaxTs (ls tp.nextSinceTs) + 1
          else tp.nextSinceTs,
        done := decide ((ls tp.nextSinceTs).length < maxCommentsPerPage),
        nextIndex := match (ls tp.nextSinceTs).getLast? with
          | some c => c.OrderIndex + 1
          | none => tp.nextIndex }) := by
  unfold CommentsPaginator.page getNewThreadCommentsPage
  rw [hdone]
  simp [hmode, htid, and_assoc]

/-- The running-maximum loop over `n` copies of the same comment yields the
maximum of the accumulator and that comment's timestamp. -/
lemma foldl_ts_replicate (c : Comment) : ∀ (n m : Nat), 0 < n →
    (List.replicate n c).foldl (fun m x => if x.TsPosted > m then x.TsPosted else m) m =
      if c.TsPosted > m then c.TsPosted else m := by
  intro n
  induction n with
  | zero => intro m h; omega
  | succ k ih =>
    intro m _
    rw [List.replicate_succ, List.foldl_cons]
    by_cases hk : 0 < k
    · rw [ih _ hk]
      by_cases hcm : c.TsPosted > m <;> simp [hcm]
    · have hk0 : k = 0 := by omega
      subst hk0
      simp

/-- `pageMaxTs` of a nonempty constant page. -/
lemma pageMaxTs_replicate (c : Comment) (n : Nat) (h : 0 < n) :
    pageMaxTs (List.replicate n c) = if c.TsPosted > 0 then c.TsPosted else 0 :=
  foldl_ts_replicate c n 0 h

/-- The last element of a nonempty constant page. -/
lemma getLast?_replicate (c : Comment) : ∀ (n : Nat), 0 < n →
    (List.replicate n c).getLast? = some c := by
  intro n
  induction n with
  | zero => intro h; omega
  | succ k ih =>
    intro _
    by_cases hk : 0 < k
    · rw [List.replicate_succ]
      obtain ⟨k2, rfl⟩ : ∃ k2, k = k2 + 1 := ⟨k - 1, by omega⟩
      rw [List.replicate_succ, List.getLast?_cons_cons, ← List.replicate_succ, ih hk]
    · have hk0 : k = 0 := by omega
      subst hk0
      simp

/-- C6 counterexample: in loose mode with boundary 5, a full page whose
maximum posted timestamp is `T = 0` does *not* advance the boundary to
`T + 1 = 1`; the next fetch still sends `newer_than_ts = 5`.  The probe
server answers boundary 1 with the page and anything else with `[]`; the
second fetch comes back empty, showing the request was not sent with the
claimed boundary. -/
theorem looseCursor_zeroMaxTs :
    pageMaxTs (List.replicate 500 ⟨1, "", 1, 0, 0⟩) = 0 ∧
    ((mkNewCommentsPaginator 1 5).page (fun _ => [])
      (fun _ => List.replicate 500 ⟨1, "", 1, 0, 0⟩)).1 =
      .ok (List.replicate 500 ⟨1, "", 1, 0, 0⟩) ∧
    ((mkNewCommentsPaginator 1 5).page (fun _ => [])
      (fun _ => List.replicate 500 ⟨1, "", 1, 0, 0⟩)).2.nextSinceTs = 5 ∧
    (((mkNewCommentsPaginator 1 5).page (fun _ => [])
        (fun _ => List.replicate 500 ⟨1, "", 1, 0, 0⟩)).2.page (fun _ => [])
      (fun t => if t = 0 + 1 then List.replicate 500 ⟨1, "", 1, 0, 0⟩ else [])).1 =
      .ok ([] : List Comment) ∧
    (5 : Nat) ≠ 0 + 1 := by
  have hmax : pageMaxTs (List.replicate 500 (⟨1, "", 1, 0, 0⟩ : Comment)) = 0 := by
    rw [pageMaxTs_replicate _ _ (by omega)]
    decide
  have h1 := CommentsPaginator.page_loose (fun _ => [])
    (fun _ => List.replicate 500 (⟨1, "", 1, 0, 0⟩ : Comment))
    (mkNewCommentsPaginator 1 5) rfl (by decide) (by decide)
  have hstate : ((mkNewCommentsPaginator 1 5).page (fun _ => [])
      (fun _ => List.replicate 500 (⟨1, "", 1, 0, 0⟩ : Comment))).2 =
      ⟨1, 1, false, 5⟩ := by
    rw [h1]
    simp only []
    rw [List.length_replicate, hmax, if_neg (by omega),
      getLast?_replicate _ _ (by omega)]
    rfl
  refine ⟨hmax, by rw [h1], by rw [hstate], ?_, by omega⟩
  rw [hstate]
  rfl

/-- C6 (amended): in loose mode, after a `Page` call returns a *full* page
whose maximum posted timestamp `T` is *nonzero*, the boundary becomes `T + 1`
and the paginator's next fetch queries the server exactly at `T + 1`. -/
theorem looseCursor_advance (es : Int → List Comment) (ls : Nat → List Comment)
    (tp : CommentsPaginator) (pg : List Comment) (T : Nat)
    (hdone : tp.done = false) (hmode : tp.nextSinceTs ≠ 0) (htid : tp.threadID ≠ 0)
    (hserve : ls tp.nextSinceTs = pg) (hfull : pg.length = maxCommentsPerPage)
    (hmax : pageMaxTs pg = T) (hT : T ≠ 0) :
    (tp.page es ls).1 = .ok pg ∧
    (tp.page es ls).2.nextSinceTs = T + 1 ∧
    (tp.page es ls).2.done = false ∧
    ∀ (es2 : Int → List Comment) (ls2 : Nat → List Comment),
      ((tp.page es ls).2.page es2 ls2).1 = .ok (ls2 (T + 1)) := by
  have hlen : pg.length ≠ 0 := by rw [hfull]; simp [maxCommentsPerPage]
  have hpage := CommentsPaginator.page_loose es ls tp hdone hmode htid
  rw [hserve] at hpage
  have hts : (if pg.length ≠ 0 ∧ pageMaxTs pg ≠ 0 then pageMaxTs pg + 1
      else tp.nextSinceTs) = T + 1 := by
    rw [if_pos ⟨hlen, by rw [hmax]; exact hT⟩, hmax]
  have hdone2 : decide (pg.length < maxCommentsPerPage) = false := by
    rw [hfull]; simp
  refine ⟨by rw [hpage], by rw [hpage]; simpa using hts, by rw [hpage]; simpa using hdone2, ?_⟩
  intro es2 ls2
  have hstate2 : (tp.page es ls).2.done = false ∧ (tp.page es ls).2.nextSinceTs = T + 1 ∧
      (tp.page es ls).2.threadID = tp.threadID := by
    rw [hpage]
    exact ⟨by simpa using hdone2, by simpa using hts, rfl⟩
  obtain ⟨h1, h2, h3⟩ := hstate2
  have := CommentsPaginator.page_loose es2 ls2 (tp.page es ls).2 h1
    (by rw [h2]; exact Nat.succ_ne_zero T) (by rw [h3]; exact htid)
  rw [this, h2]

/-- Witness for C6's amended advance rule: boundary 3, a full page of
timestamp-7 comments; the boundary becomes 8 and the next fetch queries the
server at 8. -/
theorem looseCursor_advance_witness :
    ((mkNewCommentsPaginator 1 3).page (fun _ => [])
      (fun _ => List.replicate 500 ⟨1, "", 1, 0, 7⟩)).1 =
      .ok (List.replicate 500 ⟨1, "", 1, 0, 7⟩) ∧
    ((mkNewCommentsPaginator 1 3).page (fun _ => [])
      (fun _ => List.replicate 500 ⟨1, "", 1, 0, 7⟩)).2.nextSinceTs = 7 + 1 ∧
    (((mkNewCommentsPaginator 1 3).page (fun _ => [])
        (fun _ => List.replicate 500 ⟨1, "", 1, 0, 7⟩)).2.page (fun _ => [])
      (fun t => if t = 8 then [⟨2, "", 1, 500, 9⟩] else [])).1 =
      .ok [⟨2, "", 1, 500, 9⟩] := by
  have h := looseCursor_advance (fun _ => []) (fun _ => List.replicate 500 ⟨1, "", 1, 0, 7⟩)
    (mkNewCommentsPaginator 1 3) (List.replicate 500 ⟨1, "", 1, 0, 7⟩) 7
    (by decide) (by decide) (by decide) rfl (by rw [List.length_replicate]; rfl)
    (by rw [pageMaxTs_replicate _ _ (by omega)]; norm_num) (by omega)
  refine ⟨h.1, h.2.1, ?_⟩
  have hconc := h.2.2.2 (fun _ => [])
    (fun t => if t = 8 then [(⟨2, "", 1, 500, 9⟩ : Comment)] else [])
  rw [if_pos (by omega : (7 : Nat) + 1 = 8)] at hconc
  exact hconc

/-! ## Exact-mode index guard (C10) -/

/-- C10 counterexample page: 500 comments, sorted and contiguous, with order
indices `-600 .. -101`.  It passes the fetcher's validation, yet makes the
paginator set `nextIndex = -100`. -/
def negIndexPage : List Comment :=
  (List.range 500).map (fun j => ⟨j, "", 1, (j : Int) - 600, 1⟩)

/-- A server giving `negIndexPage` for the initial request and nothing
afterwards. -/
def negIndexServer : Int → List Comment := fun i => if i = 0 then negIndexPage else []

/-- Evaluation of one exact-mode `Page` call on a live paginator, by cases on
the fetch result. -/
lemma CommentsPaginator.page_exact (es : Int → List Comment) (ls : Nat → List Comment)
    (tp : CommentsPaginator) (hdone : tp.done = false) (hmode : tp.nextSinceTs = 0) :
    tp.page es ls = (match getThreadCommentsPage es tp.threadID tp.nextIndex with
      | .panicked => (.panicked, tp)
      | .error e => (.error e, tp)
      | .ok comments => (.ok comments, { tp with
          done := decide (comments.length < maxCommentsPerPage),
          nextIndex := match comments.getLast? with
            | some c => c.OrderIndex + 1
            | none => tp.nextIndex })) := by
  unfold CommentsPaginator.page
  rw [hdone]
  cases h : getThreadCommentsPage es tp.threadID tp.nextIndex with
  | panicked => simp [hmode, h]
  | error e => simp [hmode, h]
  | ok comments => simp [hmode, h]

/-- Evaluation of one exact-mode `Page` call when the served page validates. -/
lemma CommentsPaginator.page_exact_ok (es : Int → List Comment) (ls : Nat → List Comment)
    (tp : CommentsPaginator) (hdone : tp.done = false) (hmode : tp.nextSinceTs = 0)
    (h0 : 0 ≤ tp.nextIndex) (htid : tp.threadID ≠ 0) (hv : contigFrom (es tp.nextIndex)) :
    tp.page es ls = (.ok (es tp.nextIndex), { tp with
      done := decide ((es tp.nextIndex).length < maxCommentsPerPage),
      nextIndex := match (es tp.nextIndex).getLast? with
        | some c => c.OrderIndex + 1
        | none => tp.nextIndex }) := by
  rw [CommentsPaginator.page_exact es ls tp hdone hmode,
    getThreadCommentsPage_ok_of_contig es tp.threadID tp.nextIndex h0 htid hv]

/-- A live exact-mode paginator whose cursor has gone negative panics on the
next `Page` call. -/
lemma CommentsPaginator.page_exact_neg (es : Int → List Comment) (ls : Nat → List Comment)
    (tp : CommentsPaginator) (hdone : tp.done = false) (hmode : tp.nextSinceTs = 0)
    (hneg : tp.nextIndex < 0) : tp.page es ls = (.panicked, tp) := by
  rw [CommentsPaginator.page_exact es ls tp hdone hmode]
  unfold getThreadCommentsPage
  rw [if_pos hneg]

/-- `headI` of a nonempty list is its element at position 0. -/
lemma headI_eq_get {α : Type} [Inhabited α] (l : List α) (h : 0 < l.length) :
    l.headI = l.get ⟨0, h⟩ := by
  cases l with
  | nil => simp at h
  | cons a t => rfl

/-- Element formula for the C10 counterexample page. -/
lemma negIndexPage_get (j : Nat) (h : j < negIndexPage.length) :
    negIndexPage.get ⟨j, h⟩ = ⟨j, "", 1, (j : Int) - 600, 1⟩ := by
  simp [negIndexPage, List.get_eq_getElem]

/-- Size of the C10 counterexample page: a full page. -/
lemma negIndexPage_length : negIndexPage.length = 500 := by
  simp [negIndexPage]

/-- The C10 counterexample page passes the exact-mode validation. -/
lemma negIndexPage_contig : contigFrom negIndexPage := by
  have h0 : 0 < negIndexPage.length := by rw [negIndexPage_length]; omega
  intro j h
  rw [negIndexPage_get j h, headI_eq_get negIndexPage h0, negIndexPage_get 0 h0]
  simp only [negIndexPage]
  omega

/-- The last record of the C10 counterexample page has order index `-101`. -/
lemma negIndexPage_getLast? : negIndexPage.getLast? = some ⟨499, "", 1, -101, 1⟩ := by
  have h : 499 < negIndexPage.length := by rw [negIndexPage_length]; omega
  calc negIndexPage.getLast? = negIndexPage[negIndexPage.length - 1]? :=
        List.getLast?_eq_getElem? _
    _ = negIndexPage[(499 : Nat)]? := by rw [negIndexPage_length]
    _ = some (negIndexPage.get ⟨499, h⟩) := by
        rw [List.getElem?_eq_getElem h, List.get_eq_getElem]
    _ = some ⟨499, "", 1, -101, 1⟩ := by rw [negIndexPage_get]; norm_num

/-- First `Page` call against the C10 server: the validated page is accepted
and the cursor lands at `-100`. -/
lemma negIndexFirstPage :
    (mkCommentsPaginator 1).page negIndexServer (fun _ => []) =
      (.ok negIndexPage, ⟨1, -100, false, 0⟩) := by
  have hes : negIndexServer (mkCommentsPaginator 1).nextIndex = negIndexPage := rfl
  have h := CommentsPaginator.page_exact_ok negIndexServer (fun _ => [])
    (mkCommentsPaginator 1) rfl rfl (by decide) (by decide)
    (by rw [hes]; exact negIndexPage_contig)
  rw [h, hes, negIndexPage_getLast?]
  have hlen : decide (negIndexPage.length < maxCommentsPerPage) = false := by
    rw [negIndexPage_length]
    rfl
  rw [hlen]
  rfl

/-- C10 counterexample: a response sequence that passes the fetcher's
sortedness and contiguity validation can still drive the exact-mode cursor
negative, so the very next fetch hits the `fromIndex < 0` panic — the
validation alone does not maintain the guarded precondition. -/
theorem exactIndexGuard_breakable :
    ((mkCommentsPaginator 1).page negIndexServer (fun _ => [])).1 = .ok negIndexPage ∧
    ((mkCommentsPaginator 1).page negIndexServer (fun _ => [])).2.nextIndex = -100 ∧
    (((mkCommentsPaginator 1).page negIndexServer (fun _ => [])).2.page negIndexServer
      (fun _ => [])).1 = .panicked ∧
    drainComments negIndexServer (fun _ => []) 2 (mkCommentsPaginator 1) = .panicked := by
  have hsecond : (⟨1, -100, false, 0⟩ : CommentsPaginator).page negIndexServer
      (fun _ => []) = (.panicked, ⟨1, -100, false, 0⟩) :=
    CommentsPaginator.page_exact_neg negIndexServer (fun _ => []) _ rfl rfl (by norm_num)
  refine ⟨by rw [negIndexFirstPage], by rw [negIndexFirstPage], ?_, ?_⟩
  · rw [negIndexFirstPage]
    show ((⟨1, -100, false, 0⟩ : CommentsPaginator).page negIndexServer (fun _ => [])).1 =
      .panicked
    rw [hsecond]
  · unfold drainComments
    rw [negIndexFirstPage]
    rfl

/-- One exact-mode `Page` step cannot panic from a non-negative cursor, and —
when the served pages' first order indices are non-negative — it keeps the
cursor non-negative and the mode exact. -/
lemma page_exact_preserves (es : Int → List Comment) (ls : Nat → List Comment)
    (tp : CommentsPaginator) (hmode : tp.nextSinceTs = 0) (hidx : 0 ≤ tp.nextIndex)
    (hfirst : ∀ c, (es tp.nextIndex).head? = some c → 0 ≤ c.OrderIndex) :
    (tp.page es ls).1 ≠ .panicked ∧
    (∀ pg, (tp.page es ls).1 = .ok pg →
      (tp.page es ls).2.nextSinceTs = 0 ∧ 0 ≤ (tp.page es ls).2.nextIndex) := by
  by_cases hdone : tp.done = true
  · rw [comments_page_done es ls tp hdone]
    exact ⟨by simp, by simp⟩
  · rw [Bool.not_eq_true] at hdone
    rw [CommentsPaginator.page_exact es ls tp hdone hmode]
    cases hfetch : getThreadCommentsPage es tp.threadID tp.nextIndex with
    | panicked => exact absurd hfetch (getThreadCommentsPage_no_panic es tp.threadID _ hidx)
    | error e => simp
    | ok out =>
      obtain ⟨hout, hcontig, _⟩ := getThreadCommentsPage_ok_inv es tp.threadID _ out hfetch
      refine ⟨by simp, ?_⟩
      intro pg hpg
      refine ⟨by simpa using hmode, ?_⟩
      cases hlast : out.getLast? with
      | none => simpa [hlast] using hidx
      | some c =>
        have hne : out ≠ [] := by
          intro hnil; rw [hnil] at hlast; simp at hlast
        have hlen : 0 < out.length := List.length_pos.mpr hne
        have hc : c = out.get ⟨out.length - 1, by omega⟩ := by
          have h1 : out.getLast? = some (out.getLast hne) := List.getLast?_eq_getLast out hne
          rw [h1] at hlast
          have h2 : out.getLast hne = out.get ⟨out.length - 1, by omega⟩ := by
            rw [List.getLast_eq_getElem]
            simp [List.get_eq_getElem]
          rw [← h2]
          exact (Option.some.injEq _ _ ▸ hlast).symm
        have hci : c.OrderIndex = out.headI.OrderIndex + (out.length - 1 : Nat) := by
          rw [hc]
          exact hcontig (out.length - 1) (by omega)
        have hhead : 0 ≤ out.headI.OrderIndex := by
          apply hfirst
          rw [← hout]
          cases out with
          | nil => exact absurd rfl hne
          | cons a rest => rfl
        simp only [hlast]
        omega

/-- C10 (amended): starting from the initial exact-mode state
(`nextIndex = 0`), if every page the server produces at a non-negative index
has a non-negative first order index, then draining the paginator never
triggers the `fromIndex < 0` panic (the claim as stated — for *every*
validated response sequence — is refuted by `exactIndexGuard_breakable`). -/
theorem exactIndexGuard_maintained (es : Int → List Comment) (ls : Nat → List Comment)
    (hfirst : ∀ i : Int, 0 ≤ i → ∀ c, (es i).head? = some c → 0 ≤ c.OrderIndex) :
    ∀ (fuel : Nat) (tp : CommentsPaginator), tp.nextSinceTs = 0 → 0 ≤ tp.nextIndex →
      drainComments es ls fuel tp ≠ .panicked := by
  intro fuel
  induction fuel with
  | zero =>
    intro tp _ _
    unfold drainComments
    by_cases h : tp.done = true <;> simp [h]
  | succ f ih =>
    intro tp hmode hidx
    unfold drainComments
    by_cases hdone : tp.done = true
    · simp [hdone]
    · rw [Bool.not_eq_true] at hdone
      simp only [hdone, Bool.false_eq_true, if_false]
      obtain ⟨hnp, hok⟩ := page_exact_preserves es ls tp hmode hidx
        (hfirst tp.nextIndex hidx)
      rcases hpage : tp.page es ls with ⟨r, tp'⟩
      cases r with
      | panicked => exact absurd (by rw [hpage]) hnp
      | error e => simp
      | ok pg =>
        have hinv := hok pg (by rw [hpage])
        rw [hpage] at hinv
        have hrec := ih tp' hinv.1 hinv.2
        simp only []
        cases hd : drainComments es ls f tp' with
        | panicked => exact absurd hd hrec
        | error e => simp
        | ok pages => simp

/-- Witness for C10's amended guard: a server that always answers with the
empty page trivially satisfies the first-index condition; draining from the
initial state never panics. -/
theorem exactIndexGuard_maintained_witness :
    drainComments (fun _ => []) (fun _ => []) 3 (mkCommentsPaginator 1) ≠ .panicked :=
  exactIndexGuard_maintained (fun _ => []) (fun _ => [])
    (fun _ _ c hc => by simp at hc) 3 (mkCommentsPaginator 1) rfl (by decide)

/-! ## Exact-mode drain correctness (C1) -/

/-- The cursor update performed on a successful exact-mode page (an
abbreviation for the state produced by `CommentsPaginator.page`). -/
def exactAdvance (tp : CommentsPaginator) (out : List Comment) : CommentsPaginator :=
  { tp with done := decide (out.length < maxCommentsPerPage),
            nextIndex := match out.getLast? with
              | some c => c.OrderIndex + 1
              | none => tp.nextIndex }

/-- `page_exact_ok` re-stated through `exactAdvance`. -/
lemma CommentsPaginator.page_exact_ok2 (es : Int → List Comment) (ls : Nat → List Comment)
    (tp : CommentsPaginator) (hdone : tp.done = false) (hmode : tp.nextSinceTs = 0)
    (h0 : 0 ≤ tp.nextIndex) (htid : tp.threadID ≠ 0) (hv : contigFrom (es tp.nextIndex)) :
    tp.page es ls = (.ok (es tp.nextIndex), exactAdvance tp (es tp.nextIndex)) :=
  CommentsPaginator.page_exact_ok es ls tp hdone hmode h0 htid hv

/-- Unfolding of the drain loop on a live paginator. -/
lemma drainComments_step (es : Int → List Comment) (ls : Nat → List Comment)
    (fuel : Nat) (tp : CommentsPaginator) (hdone : tp.done = false) :
    drainComments es ls (fuel + 1) tp =
      (match tp.page es ls with
      | (.panicked, _) => .panicked
      | (.error e, _) => .error e
      | (.ok pg, tp') =>
        match drainComments es ls fuel tp' with
        | .ok pages => .ok (pg :: pages)
        | .panicked => .panicked
        | .error e => .error e) := by
  conv_lhs => unfold drainComments
  rw [hdone]
  simp

/-- The last element of a nonempty list as a positional access. -/
lemma getLast?_eq_get {α : Type} (l : List α) (h : 0 < l.length) :
    l.getLast? = some (l.get ⟨l.length - 1, by omega⟩) := by
  have hne : l ≠ [] := by
    intro hnil
    rw [hnil] at h
    simp at h
  rw [List.getLast?_eq_getLast l hne, List.getLast_eq_getElem]
  rw [List.get_eq_getElem]

/-- Positional access into a `take`-of-`drop` window. -/
lemma get_take_drop (cs : List Comment) (k n j : Nat)
    (h : j < ((cs.drop k).take n).length) :
    ((cs.drop k).take n).get ⟨j, h⟩ =
      cs.get ⟨k + j, by
        rw [List.length_take, List.length_drop] at h
        omega⟩ := by
  rw [List.get_eq_getElem, List.get_eq_getElem, List.getElem_take, List.getElem_drop]

/-- A window cut out of a thread with dense order indices `0..N-1` is
contiguous. -/
lemma densePage_contig (cs : List Comment)
    (hdense : ∀ j (h : j < cs.length), (cs.get ⟨j, h⟩).OrderIndex = (j : Int)) (k : Nat) :
    contigFrom ((cs.drop k).take maxCommentsPerPage) := by
  intro j h
  have h0 : 0 < ((cs.drop k).take maxCommentsPerPage).length := by omega
  rw [headI_eq_get _ h0, get_take_drop cs k _ j h, get_take_drop cs k _ 0 h0,
    hdense (k + j) _, hdense (k + 0) _]
  push_cast
  ring

/-- Core induction for C1: from cursor `k`, a paginator running against the
correct exact server collects exactly the suffix `cs.drop k`. -/
lemma drainComments_exact_aux (cs : List Comment) (ls : Nat → List Comment) (tid : Nat)
    (htid : tid ≠ 0)
    (hdense : ∀ j (h : j < cs.length), (cs.get ⟨j, h⟩).OrderIndex = (j : Int)) :
    ∀ (fuel k : Nat), k ≤ cs.length → cs.length - k < fuel * maxCommentsPerPage →
      ∃ pages, drainComments (exactServer cs) ls fuel
          ⟨tid, (k : Int), false, 0⟩ = .ok pages ∧
        pages.flatten = cs.drop k := by
  intro fuel
  induction fuel with
  | zero =>
    intro k hk hfuel
    rw [Nat.zero_mul] at hfuel
    omega
  | succ f ih =>
    intro k hk hfuel
    have hserve : exactServer cs ((k : Nat) : Int) = (cs.drop k).take maxCommentsPerPage := by
      unfold exactServer
      rw [Int.toNat_natCast]
    have hcontig : contigFrom (exactServer cs ((k : Nat) : Int)) := by
      rw [hserve]
      exact densePage_contig cs hdense k
    have hpage := CommentsPaginator.page_exact_ok2 (exactServer cs) ls
      ⟨tid, (k : Int), false, 0⟩ rfl rfl (Int.natCast_nonneg k) htid hcontig
    rw [show ((⟨tid, (k : Int), false, 0⟩ : CommentsPaginator).nextIndex) = ((k : Nat) : Int)
      from rfl, hserve] at hpage
    have hlenw : ((cs.drop k).take maxCommentsPerPage).length =
        min maxCommentsPerPage (cs.length - k) := by
      rw [List.length_take, List.length_drop]
    by_cases hshort : cs.length - k < maxCommentsPerPage
    · -- last page: everything that remains fits in one page
      have hall : (cs.drop k).take maxCommentsPerPage = cs.drop k := by
        apply List.take_of_length_le
        rw [List.length_drop]
        omega
      have hdone' : (exactAdvance ⟨tid, (k : Int), false, 0⟩
          ((cs.drop k).take maxCommentsPerPage)).done = true := by
        show decide (((cs.drop k).take maxCommentsPerPage).length < maxCommentsPerPage) = true
        rw [hlenw]
        simp only [decide_eq_true_eq]
        omega
      refine ⟨[cs.drop k], ?_, by simp⟩
      rw [drainComments_step _ _ f _ rfl, hpage]
      simp only []
      rw [drainComments_done _ _ f _ hdone', hall]
    · -- full page: recurse from cursor k + 500
      have hfull : ((cs.drop k).take maxCommentsPerPage).length = maxCommentsPerPage := by
        rw [hlenw]
        omega
      have hpos : 0 < ((cs.drop k).take maxCommentsPerPage).length := by
        rw [hfull]
        norm_num [maxCommentsPerPage]
      have hlast : ((cs.drop k).take maxCommentsPerPage).getLast? =
          some (cs.get ⟨k + (maxCommentsPerPage - 1), by
            have := hfull
            rw [hlenw] at this
            omega⟩) := by
        rw [getLast?_eq_get _ hpos]
        congr 1
        rw [get_take_drop cs k maxCommentsPerPage _ (by omega)]
        congr 1
        apply Fin.ext
        show k + (((cs.drop k).take maxCommentsPerPage).length - 1) =
          k + (maxCommentsPerPage - 1)
        rw [hfull]
      have hidxlast : (cs.get ⟨k + (maxCommentsPerPage - 1), by
          rw [hlenw] at hfull
          omega⟩).OrderIndex = ((k + (maxCommentsPerPage - 1) : Nat) : Int) :=
        hdense _ _
      have hstate : exactAdvance ⟨tid, (k : Int), false, 0⟩
          ((cs.drop k).take maxCommentsPerPage) =
          ⟨tid, ((k + maxCommentsPerPage : Nat) : Int), false, 0⟩ := by
        unfold exactAdvance
        rw [hlast]
        simp only [hidxlast, hfull]
        have harith : ((k + (maxCommentsPerPage - 1) : Nat) : Int) + 1 =
            ((k + maxCommentsPerPage : Nat) : Int) := by
          have : 1 ≤ maxCommentsPerPage := by norm_num [maxCommentsPerPage]
          push_cast [Nat.sub_add_cancel this]
          omega
        rw [harith]
        simp
      obtain ⟨pages', hdrain', hflat'⟩ := ih (k + maxCommentsPerPage)
        (by rw [hlenw] at hfull; simp only [maxCommentsPerPage] at hfull ⊢; omega)
        (by simp only [maxCommentsPerPage] at hfuel hshort ⊢; omega)
      refine ⟨(cs.drop k).take maxCommentsPerPage :: pages', ?_, ?_⟩
      · rw [drainComments_step _ _ f _ rfl, hpage]
        simp only []
        rw [hstate, hdrain']
      · rw [List.flatten_cons, hflat']
        rw [show cs.drop (k + maxCommentsPerPage) = (cs.drop k).drop maxCommentsPerPage from
          (List.drop_drop _ _ _).symm]
        exact List.take_append_drop _ _

/-- C1: (a) for a thread whose comments have dense order indices `0..N-1` and
a server answering every exact-index page request correctly, draining the
paginator built by `CommentsPaginator(threadID)` succeeds and the
concatenation of its pages is exactly the comment list in ascending index
order; (b) if the page served for a fetch is not sorted ascending by order
index or is not exactly `first, first+1, first+2, …`, that `Page` call
returns an error instead of a page. -/
theorem commentsExactPagination :
    (∀ (cs : List Comment) (ls : Nat → List Comment) (tid fuel : Nat), tid ≠ 0 →
      (∀ j (h : j < cs.length), (cs.get ⟨j, h⟩).OrderIndex = (j : Int)) →
      cs.length < fuel * maxCommentsPerPage →
      ∃ pages, drainComments (exactServer cs) ls fuel (mkCommentsPaginator tid) = .ok pages ∧
        pages.flatten = cs) ∧
    (∀ (es : Int → List Comment) (ls : Nat → List Comment) (tp : CommentsPaginator),
      tp.done = false → tp.nextSinceTs = 0 → 0 ≤ tp.nextIndex →
      (commentsSorted (es tp.nextIndex) = false ∨ ¬ contigFrom (es tp.nextIndex)) →
      ∃ e, (tp.page es ls).1 = .error e) := by
  constructor
  · intro cs ls tid fuel htid hdense hfuel
    obtain ⟨pages, hdrain, hflat⟩ :=
      drainComments_exact_aux cs ls tid htid hdense fuel 0 (by omega) (by simpa using hfuel)
    refine ⟨pages, ?_, by simpa using hflat⟩
    have : (mkCommentsPaginator tid) = ⟨tid, ((0 : Nat) : Int), false, 0⟩ := by
      simp [mkCommentsPaginator]
    rw [this]
    exact hdrain
  · intro es ls tp hdone hmode hidx hbad
    by_cases htid : tp.threadID = 0
    · refine ⟨"invalid thread ID", ?_⟩
      rw [CommentsPaginator.page_exact es ls tp hdone hmode]
      unfold getThreadCommentsPage
      rw [if_neg (by omega), if_pos htid]
    · obtain ⟨e, herr⟩ := getThreadCommentsPage_error_of_invalid es tp.threadID tp.nextIndex
        hidx htid hbad
      refine ⟨e, ?_⟩
      rw [CommentsPaginator.page_exact es ls tp hdone hmode, herr]

/-- Witness for C1 at a 3-comment thread (indices 0,1,2, one short page) and,
for the error half, a served page with a gap (indices 5 then 9). -/
theorem commentsExactPagination_witness :
    (∃ pages, drainComments
        (exactServer [⟨1, "", 1, 0, 10⟩, ⟨2, "", 1, 1, 11⟩, ⟨3, "", 1, 2, 12⟩])
        (fun _ => []) 1 (mkCommentsPaginator 1) = .ok pages ∧
      pages.flatten = [⟨1, "", 1, 0, 10⟩, ⟨2, "", 1, 1, 11⟩, ⟨3, "", 1, 2, 12⟩]) ∧
    (∃ e, ((mkCommentsPaginator 1).page
        (fun _ => [⟨1, "", 1, 5, 0⟩, ⟨2, "", 1, 9, 0⟩]) (fun _ => [])).1 = .error e) :=
  ⟨commentsExactPagination.1 [⟨1, "", 1, 0, 10⟩, ⟨2, "", 1, 1, 11⟩, ⟨3, "", 1, 2, 12⟩]
      (fun _ => []) 1 1 (by decide) (by decide) (by decide),
   commentsExactPagination.2 (fun _ => [⟨1, "", 1, 5, 0⟩, ⟨2, "", 1, 9, 0⟩]) (fun _ => [])
      (mkCommentsPaginator 1) rfl rfl (by decide) (Or.inr (by decide))⟩

/-! ## Threads drain correctness (C2) -/

/-- The cursor update performed on a successful threads page. -/
def threadsAdvance (tp : ThreadsPaginator) (out : List Thread) : ThreadsPaginator :=
  { tp with done := decide (out.length < maxThreadsPerPage),
            afterID := match out.getLast? with
              | some t => t.Id
              | none => tp.afterID }

/-- Evaluation of one threads `Page` call when the served page is sorted. -/
lemma ThreadsPaginator.page_ok (serve : Int → List Thread) (tp : ThreadsPaginator)
    (hdone : tp.done = false) (hcid : tp.channelID ≠ 0)
    (hsorted : threadsSorted (serve (afterIDParam tp.afterID)) = true) :
    tp.page serve = (.ok (serve (afterIDParam tp.afterID)),
      threadsAdvance tp (serve (afterIDParam tp.afterID))) := by
  unfold ThreadsPaginator.page getChannelThreadsPage threadsAdvance
  rw [hdone]
  simp [hcid, hsorted]

/-- Unfolding of the threads drain loop on a live paginator. -/
lemma drainThreads_step (serve : Int → List Thread) (fuel : Nat) (tp : ThreadsPaginator)
    (hdone : tp.done = false) :
    drainThreads serve (fuel + 1) tp =
      (match tp.page serve with
      | (.error e, _) => .error e
      | (.ok pg, tp') =>
        match drainThreads serve fuel tp' with
        | .ok pages => .ok (pg :: pages)
        | .error e => .error e) := by
  conv_lhs => unfold drainThreads
  rw [hdone]
  simp

/-- A strictly id-ascending page passes the (non-strict) sortedness check. -/
lemma threadsSorted_of_pairwise :
    ∀ {l : List Thread}, List.Pairwise (fun a b => a.Id < b.Id) l →
      threadsSorted l = true := by
  intro l
  induction l with
  | nil => intro _; rfl
  | cons a tl ih =>
    intro hp
    cases tl with
    | nil => rfl
    | cons b tl2 =>
      obtain ⟨hhead, htail⟩ := List.pairwise_cons.mp hp
      show (decide (a.Id ≤ b.Id) && threadsSorted (b :: tl2)) = true
      rw [ih htail]
      have : a.Id ≤ b.Id := Nat.le_of_lt (hhead b (by simp))
      simp [this]

/-- Positional access into a `take` prefix. -/
lemma get_take {α : Type} (l : List α) (n j : Nat) (h : j < (l.take n).length) :
    (l.take n).get ⟨j, h⟩ = l.get ⟨j, by rw [List.length_take] at h; omega⟩ := by
  rw [List.get_eq_getElem, List.get_eq_getElem, List.getElem_take]

/-- Filtering above a larger bound factors through filtering above a smaller
one. -/
lemma filter_chain (ts : List Thread) (p b : Int)
    (hpb : ∀ t : Thread, t ∈ ts → b < (t.Id : Int) → p < (t.Id : Int)) :
    ts.filter (fun t => decide (b < (t.Id : Int))) =
      (ts.filter (fun t => decide (p < (t.Id : Int)))).filter
        (fun t => decide (b < (t.Id : Int))) := by
  rw [List.filter_filter]
  apply List.filter_congr
  intro x hx
  by_cases hb : b < (x.Id : Int)
  · have hpx := hpb x hx hb
    simp [hb, hpx]
  · simp [hb]

/-- In a strictly id-ascending list, keeping only elements with id above the
element at position `j` drops exactly the first `j + 1` elements. -/
lemma filter_gt_get :
    ∀ (l : List Thread), List.Pairwise (fun x y => x.Id < y.Id) l →
      ∀ (j : Nat) (h : j < l.length),
        l.filter (fun t => decide (((l.get ⟨j, h⟩).Id : Int) < (t.Id : Int))) =
          l.drop (j + 1) := by
  intro l
  induction l with
  | nil => intro _ j h; simp at h
  | cons x xs ih =>
    intro hp j h
    obtain ⟨hhead, htail⟩ := List.pairwise_cons.mp hp
    cases j with
    | zero =>
      have hget : ((x :: xs).get ⟨0, h⟩) = x := rfl
      rw [hget, List.filter_cons_of_neg (by simp), List.drop_succ_cons, List.drop_zero]
      apply List.filter_eq_self.mpr
      intro y hy
      have := hhead y hy
      simp only [decide_eq_true_eq]
      exact_mod_cast this
    | succ j =>
      have hj : j < xs.length := by simpa using h
      have hget : ((x :: xs).get ⟨j + 1, h⟩) = xs.get ⟨j, hj⟩ := by
        simp [List.get_eq_getElem]
      rw [hget]
      have hmem : xs.get ⟨j, hj⟩ ∈ xs := List.get_mem xs j hj
      have hxlt : x.Id < (xs.get ⟨j, hj⟩).Id := hhead _ hmem
      rw [List.filter_cons_of_neg (by simp only [decide_eq_true_eq]; omega),
        List.drop_succ_cons]
      exact ih htail j hj

/-- Core induction for C2: from cursor `a`, a paginator running against the
correct threads server collects exactly the threads with id above the wire
parameter, in `⌊len/P⌋ + 1` pages. -/
lemma drainThreads_aux (ts : List Thread) (cid : Nat) (hcid : cid ≠ 0)
    (hp : List.Pairwise (fun a b => a.Id < b.Id) ts) :
    ∀ (fuel a : Nat) (rem : List Thread),
      rem = ts.filter (fun t => decide (afterIDParam a < (t.Id : Int))) →
      rem.length < fuel * maxThreadsPerPage →
      ∃ pages, drainThreads (threadServer ts) fuel ⟨cid, a, false⟩ = .ok pages ∧
        pages.flatten = rem ∧ pages.length = rem.length / maxThreadsPerPage + 1 := by
  intro fuel
  induction fuel with
  | zero =>
    intro a rem hrem hfuel
    rw [Nat.zero_mul] at hfuel
    omega
  | succ f ih =>
    intro a rem hrem hfuel
    have hremp : List.Pairwise (fun x y => x.Id < y.Id) rem := by
      rw [hrem]
      exact hp.sublist (List.filter_sublist ts)
    have hserve : threadServer ts (afterIDParam a) = rem.take maxThreadsPerPage := by
      unfold threadServer
      rw [← hrem]
    have hsorted : threadsSorted (rem.take maxThreadsPerPage) = true :=
      threadsSorted_of_pairwise (hremp.sublist (List.take_sublist _ _))
    have hpage := ThreadsPaginator.page_ok (threadServer ts) ⟨cid, a, false⟩ rfl hcid
      (by rw [show (⟨cid, a, false⟩ : ThreadsPaginator).afterID = a from rfl, hserve]
          exact hsorted)
    rw [show afterIDParam (⟨cid, a, false⟩ : ThreadsPaginator).afterID = afterIDParam a
      from rfl, hserve] at hpage
    by_cases hshort : rem.length < maxThreadsPerPage
    · have hall : rem.take maxThreadsPerPage = rem := List.take_of_length_le (by omega)
      have hdone' : (threadsAdvance ⟨cid, a, false⟩ (rem.take maxThreadsPerPage)).done =
          true := by
        show decide ((rem.take maxThreadsPerPage).length < maxThreadsPerPage) = true
        rw [hall]
        simp only [decide_eq_true_eq]
        exact hshort
      refine ⟨[rem], ?_, by simp, ?_⟩
      · rw [drainThreads_step _ f _ rfl, hpage]
        simp only []
        rw [drainThreads_done _ f _ hdone', hall]
      · simp only [List.length_cons, List.length_nil]
        rw [Nat.div_eq_of_lt hshort]
    · have hfull : (rem.take maxThreadsPerPage).length = maxThreadsPerPage := by
        rw [List.length_take]
        omega
      have hpos99 : maxThreadsPerPage - 1 < rem.length := by
        simp only [maxThreadsPerPage] at hshort ⊢
        omega
      have hpos : 0 < (rem.take maxThreadsPerPage).length := by
        rw [hfull]
        norm_num [maxThreadsPerPage]
      have hlast : (rem.take maxThreadsPerPage).getLast? =
          some (rem.get ⟨maxThreadsPerPage - 1, hpos99⟩) := by
        rw [getLast?_eq_get _ hpos]
        congr 1
        rw [get_take rem maxThreadsPerPage _ _]
        congr 1
        apply Fin.ext
        show (rem.take maxThreadsPerPage).length - 1 = maxThreadsPerPage - 1
        rw [hfull]
      have heid_pos : 0 < (rem.get ⟨maxThreadsPerPage - 1, hpos99⟩).Id := by
        have h0 : (0 : Nat) < rem.length := by omega
        have hlt : (rem.get ⟨0, h0⟩).Id < (rem.get ⟨maxThreadsPerPage - 1, hpos99⟩).Id := by
          refine (List.pairwise_iff_get.mp hremp) ⟨0, h0⟩ ⟨maxThreadsPerPage - 1, hpos99⟩ ?_
          show (0 : Nat) < maxThreadsPerPage - 1
          norm_num [maxThreadsPerPage]
        omega
      have hparam : afterIDParam (rem.get ⟨maxThreadsPerPage - 1, hpos99⟩).Id =
          ((rem.get ⟨maxThreadsPerPage - 1, hpos99⟩).Id : Int) := by
        unfold afterIDParam
        rw [if_neg (by omega)]
      have hmemrem : rem.get ⟨maxThreadsPerPage - 1, hpos99⟩ ∈ rem :=
        List.get_mem rem _ hpos99
      have hmem2 : rem.get ⟨maxThreadsPerPage - 1, hpos99⟩ ∈
          ts.filter (fun t => decide (afterIDParam a < (t.Id : Int))) := by
        rw [← hrem]
        exact hmemrem
      have hpfilter : afterIDParam a <
          ((rem.get ⟨maxThreadsPerPage - 1, hpos99⟩).Id : Int) := by
        have := (List.mem_filter.mp hmem2).2
        simpa using this
      have hrem' : ts.filter (fun t =>
          decide (afterIDParam (rem.get ⟨maxThreadsPerPage - 1, hpos99⟩).Id < (t.Id : Int))) =
          rem.drop maxThreadsPerPage := by
        rw [hparam]
        rw [filter_chain ts (afterIDParam a)
          ((rem.get ⟨maxThreadsPerPage - 1, hpos99⟩).Id : Int)
          (fun t _ hbt => by omega)]
        rw [← hrem, filter_gt_get rem hremp (maxThreadsPerPage - 1) hpos99]
        norm_num [maxThreadsPerPage]
      have hstate : threadsAdvance ⟨cid, a, false⟩ (rem.take maxThreadsPerPage) =
          ⟨cid, (rem.get ⟨maxThreadsPerPage - 1, hpos99⟩).Id, false⟩ := by
        unfold threadsAdvance
        rw [hlast]
        simp only [hfull]
        simp [maxThreadsPerPage]
      obtain ⟨pages', hdrain', hflat', hcount'⟩ :=
        ih (rem.get ⟨maxThreadsPerPage - 1, hpos99⟩).Id (rem.drop maxThreadsPerPage)
          hrem'.symm
          (by rw [List.length_drop]
              simp only [maxThreadsPerPage] at hfuel hshort ⊢
              omega)
      refine ⟨rem.take maxThreadsPerPage :: pages', ?_, ?_, ?_⟩
      · rw [drainThreads_step _ f _ rfl, hpage]
        simp only []
        rw [hstate, hdrain']
      · rw [List.flatten_cons, hflat']
        exact List.take_append_drop _ _
      · simp only [List.length_cons, hcount', List.length_drop]
        simp only [maxThreadsPerPage] at hshort ⊢
        omega

/-- C2 counterexample channel: 100 threads with ids `1..100`. -/
def hundredThreads : List Thread :=
  (List.range 100).map (fun i => ⟨i + 1, 0, 0, "", "", 0, false⟩)

/-- The counterexample channel holds exactly `P = 100` threads. -/
lemma hundredThreads_length : hundredThreads.length = 100 := by
  simp [hundredThreads]

/-- The counterexample channel is strictly ascending by id. -/
lemma hundredThreads_pairwise :
    List.Pairwise (fun a b => a.Id < b.Id) hundredThreads := by
  rw [List.pairwise_iff_getElem]
  intro i j hi hj hij
  simp only [hundredThreads, List.getElem_map, List.getElem_range,
    List.length_map, List.length_range] at hi hj ⊢
  omega

/-- C2 counterexample: for `N = 100` threads and page size `P = 100`, the
paginator yields two pages (the full channel, then an empty terminating
page), while the claim predicts `⌈N/P⌉ = 1`. -/
theorem threadsPageCount_claim_false :
    drainThreads (threadServer hundredThreads) 2 (mkThreadsPaginator 1) =
      .ok [hundredThreads, []] ∧
    hundredThreads.length = 100 ∧
    (hundredThreads.length + maxThreadsPerPage - 1) / maxThreadsPerPage = 1 ∧
    ([hundredThreads, []] : List (List Thread)).length ≠ 1 := by
  have hfilter0 : hundredThreads.filter
      (fun t => decide (afterIDParam 0 < (t.Id : Int))) = hundredThreads := by
    apply List.filter_eq_self.mpr
    intro t _
    rw [show afterIDParam 0 = -1 from rfl]
    simp only [decide_eq_true_eq]
    omega
  have hserve0 : threadServer hundredThreads (afterIDParam 0) = hundredThreads := by
    unfold threadServer
    rw [hfilter0]
    apply List.take_of_length_le
    rw [hundredThreads_length]
    norm_num [maxThreadsPerPage]
  have hsorted0 : threadsSorted hundredThreads = true :=
    threadsSorted_of_pairwise hundredThreads_pairwise
  have hpage1 := ThreadsPaginator.page_ok (threadServer hundredThreads)
    (mkThreadsPaginator 1) rfl (by decide)
    (by rw [show (mkThreadsPaginator 1).afterID = 0 from rfl, hserve0]; exact hsorted0)
  rw [show (mkThreadsPaginator 1).afterID = 0 from rfl, hserve0] at hpage1
  have hlast100 : hundredThreads.getLast? = some ⟨100, 0, 0, "", "", 0, false⟩ := by
    have hb : 0 < hundredThreads.length := by rw [hundredThreads_length]; omega
    rw [getLast?_eq_get _ hb]
    congr 1
  have hstate1 : threadsAdvance (mkThreadsPaginator 1) hundredThreads =
      ⟨1, 100, false⟩ := by
    unfold threadsAdvance
    rw [hlast100, hundredThreads_length]
    rfl
  rw [hstate1] at hpage1
  have hfilter100 : hundredThreads.filter
      (fun t => decide (afterIDParam 100 < (t.Id : Int))) = [] := by
    apply List.filter_eq_nil_iff.mpr
    intro t ht
    obtain ⟨i, hi, rfl⟩ := List.mem_map.mp ht
    have hi100 : i < 100 := List.mem_range.mp hi
    show ¬ (decide ((100 : Int) < ((i + 1 : Nat) : Int)) = true)
    simp only [decide_eq_true_eq]
    omega
  have hserve100 : threadServer hundredThreads (afterIDParam 100) = [] := by
    unfold threadServer
    rw [hfilter100]
    rfl
  have hpage2 := ThreadsPaginator.page_ok (threadServer hundredThreads)
    ⟨1, 100, false⟩ rfl (by decide)
    (by rw [show afterIDParam (⟨1, 100, false⟩ : ThreadsPaginator).afterID =
          afterIDParam 100 from rfl, hserve100]
        rfl)
  rw [show afterIDParam (⟨1, 100, false⟩ : ThreadsPaginator).afterID =
    afterIDParam 100 from rfl, hserve100] at hpage2
  have hstate2 : threadsAdvance ⟨1, 100, false⟩ ([] : List Thread) = ⟨1, 100, true⟩ := rfl
  rw [hstate2] at hpage2
  refine ⟨?_, hundredThreads_length, by rw [hundredThreads_length]; decide, by decide⟩
  rw [show (2 : Nat) = 1 + 1 from rfl, drainThreads_step _ 1 _ rfl, hpage1]
  simp only []
  rw [drainThreads_step _ 0 _ rfl, hpage2]
  simp only []
  rw [drainThreads_done _ 0 _ rfl]

/-- C2 (amended): for a channel whose `N` threads are strictly ascending by
id and a server answering every `after_id` request correctly, draining the
paginator yields `⌊N/P⌋ + 1` pages — `⌈N/P⌉` pages when `P` does not divide
`N`, and `N/P` full pages plus one empty terminating page when it does — and
the concatenation of all pages is the full thread set, ascending by id with
no duplicate ids. -/
theorem threadsPagination_drain (ts : List Thread) (cid fuel : Nat) (hcid : cid ≠ 0)
    (hp : List.Pairwise (fun a b => a.Id < b.Id) ts)
    (hfuel : ts.length < fuel * maxThreadsPerPage) :
    ∃ pages, drainThreads (threadServer ts) fuel (mkThreadsPaginator cid) = .ok pages ∧
      pages.flatten = ts ∧
      pages.length = ts.length / maxThreadsPerPage + 1 ∧
      List.Pairwise (fun a b => a.Id < b.Id) pages.flatten := by
  have hrem : ts.filter (fun t => decide (afterIDParam 0 < (t.Id : Int))) = ts := by
    apply List.filter_eq_self.mpr
    intro t _
    rw [show afterIDParam 0 = -1 from rfl]
    simp only [decide_eq_true_eq]
    omega
  obtain ⟨pages, hdrain, hflat, hcount⟩ :=
    drainThreads_aux ts cid hcid hp fuel 0 ts hrem.symm hfuel
  exact ⟨pages, hdrain, hflat, hcount, hflat ▸ hp⟩

/-- Witness for C2's amended page-count law at a 3-thread channel: one short
page and `⌊3/100⌋ + 1 = 1` page in total. -/
theorem threadsPagination_drain_witness :
    ∃ pages, drainThreads (threadServer
        [⟨1, 0, 0, "", "", 0, false⟩, ⟨2, 0, 0, "", "", 0, false⟩,
          ⟨3, 0, 0, "", "", 0, false⟩]) 1 (mkThreadsPaginator 5) = .ok pages ∧
      pages.flatten = [⟨1, 0, 0, "", "", 0, false⟩, ⟨2, 0, 0, "", "", 0, false⟩,
        ⟨3, 0, 0, "", "", 0, false⟩] ∧
      pages.length = ([⟨1, 0, 0, "", "", 0, false⟩, ⟨2, 0, 0, "", "", 0, false⟩,
        (⟨3, 0, 0, "", "", 0, false⟩ : Thread)] : List Thread).length /
          maxThreadsPerPage + 1 ∧
      List.Pairwise (fun a b => a.Id < b.Id) pages.flatten :=
  threadsPagination_drain
    [⟨1, 0, 0, "", "", 0, false⟩, ⟨2, 0, 0, "", "", 0, false⟩, ⟨3, 0, 0, "", "", 0, false⟩]
    5 1 (by decide) (by decide) (by decide)

end Twist
